import Mathlib

/-!
# Verification of the xdg-app-ksni menu synchronization engine

Shallow embedding of the core of `src/main.rs`, `src/desktop.rs` and the
category taxonomy of this repository: the priority-ordered launcher cache
(`BTreeMap<usize, Launcher>` buckets keyed by file stem), the menu tree store
(`children`/`props` maps plus a revision counter), the launcher-name id
allocator (`LauncherCounter`), and the dbusmenu protocol surface
(`get_layout`, `get_property`, `event`, `add_launcher_path`,
`remove_launcher_path`).

Modelling conventions:
* `HashMap<i32, _>` / `HashMap<OsString, _>` become function maps
  `Nat → Option _` / `String → Option _` updated with `fupd`; keys are the
  mathematical values of the Rust keys (item ids are small positive integers,
  so the `usize → i32` cast is the identity on every value the program uses).
* `BTreeMap<usize, Launcher>` becomes an association list sorted strictly by
  key (`btInsert`/`btRemove`/`btGet`); `iter().next()` is `List.head?`.
* External collaborators are parameters: file decoding
  (`desktop::launcher_for_entry`, which does file IO) is passed in as an
  `Option Launcher` argument, and the icon rasterization pipeline inside
  `desktop::launcher_props` (SVG/PNG rendering of icon paths) is a function
  parameter `render : String → List Nat` returning the produced PNG bytes
  (an empty list models every failure branch, which leaves `icon_data`
  empty in the source).
* The `u32` revision counter is a `Nat` reduced `% 2^32` at the increment.
* `log_expect` / `unwrap` panics are modelled by `Option`-valued operations
  returning `none`.
* D-Bus signal emission is modelled by returning the list of emitted
  signals.
-/

/-- Modelled from the spec: the `constants` module (category taxonomy) of this
repository is not under `src/`; only its uses are.  Per the spec it is a fixed
enumeration of well-known categories plus an `Uncategorized` catch-all, with
stable numeric ids `1..=11` (the source iterates `for i in 1..12` over the
category ids) and display labels. -/
inductive Category where
  | audioVideo
  | development
  | education
  | game
  | graphics
  | network
  | office
  | science
  | settings
  | system
  | uncategorized
deriving DecidableEq

/-- Modelled from the spec: `constants::category_idx`, the stable numeric id
of each category, in `1..=11`. -/
def category_idx : Category → Nat
  | .audioVideo => 1
  | .development => 2
  | .education => 3
  | .game => 4
  | .graphics => 5
  | .network => 6
  | .office => 7
  | .science => 8
  | .settings => 9
  | .system => 10
  | .uncategorized => 11

/-- Modelled from the spec: `constants::category_string`, the display label of
each category. -/
def category_string : Category → String
  | .audioVideo => "Multimedia"
  | .development => "Development"
  | .education => "Education"
  | .game => "Games"
  | .graphics => "Graphics"
  | .network => "Internet"
  | .office => "Office"
  | .science => "Science"
  | .settings => "Settings"
  | .system => "System"
  | .uncategorized => "Other"

/-- `desktop::Launcher`: the decoded launcher record.  `path` is the source
file path as a string. -/
structure Launcher where
  path : String
  name : String
  categories : List Category
  exec : String
  icon : Option String
  display : Bool
deriving DecidableEq

/-- `desktop::tombstone_launcher`: the placeholder record inserted when the
last real record of a bucket is removed. -/
def tombstone_launcher (path : String) (name : String) : Launcher :=
  { path := path
    name := name
    categories := []
    exec := ""
    icon := none
    display := false }

/-- `desktop::MenuProps`: the property record stored per item id.
`icon_data` is the PNG byte vector. -/
structure MenuProps where
  label : String
  visible : Bool
  enabled : Bool
  icon_name : String
  icon_data : List Nat
  entry_type : String
  children_display : String
deriving DecidableEq

/-- `desktop::launcher_props`: computes the displayed properties of a
launcher.  The icon branch: an icon reference containing `/` is a file path
handed to the rasterization pipeline (modelled by `render`; all of its failure
branches leave `icon_data` empty, which `render` models by returning `[]`),
otherwise the reference is a themed icon name. -/
def launcher_props (render : String → List Nat) (launcher : Launcher) : MenuProps :=
  let props : MenuProps :=
    { label := launcher.name
      visible := launcher.display
      icon_name := ""
      entry_type := "standard"
      children_display := ""
      icon_data := []
      enabled := true }
  match launcher.icon with
  | some icon_ref =>
    if icon_ref.contains '/' then { props with icon_data := render icon_ref }
    else { props with icon_name := icon_ref }
  | none => props

/-- `desktop::category_props`: the fixed property record of a category node. -/
def category_props (c : Category) : MenuProps :=
  { label := category_string c
    visible := true
    icon_name := ""
    entry_type := "standard"
    children_display := "submenu"
    icon_data := []
    enabled := true }

/-- `desktop::root_props`: the fixed property record of the root node. -/
def root_props : MenuProps :=
  { label := ""
    visible := true
    icon_name := ""
    entry_type := "standard"
    children_display := "submenu"
    icon_data := []
    enabled := true }

/-- `launcher_updated` (src/main.rs): whether two records differ in any
displayed field — first category, displayable flag, icon, or name.
`categories.iter().next()` is `List.head?`. -/
def launcher_updated (orig new : Launcher) : Bool :=
  decide (orig.categories.head? ≠ new.categories.head?
    ∨ orig.display ≠ new.display
    ∨ orig.icon ≠ new.icon
    ∨ orig.name ≠ new.name)

/-- Pointwise update of a function map, the model of `HashMap` insertion /
`get_mut` assignment. -/
def fupd {α : Type} [DecidableEq α] {β : Type} (m : α → Option β) (k : α) (v : β) :
    α → Option β :=
  fun j => if j = k then some v else m j

/-- `BTreeMap::insert` on an association list sorted strictly by key. -/
def btInsert {β : Type} : List (Nat × β) → Nat → β → List (Nat × β)
  | [], k, v => [(k, v)]
  | (k', v') :: t, k, v =>
    if k < k' then (k, v) :: (k', v') :: t
    else if k = k' then (k, v) :: t
    else (k', v') :: btInsert t k v

/-- `BTreeMap::get` on an association list. -/
def btGet {β : Type} : List (Nat × β) → Nat → Option β
  | [], _ => none
  | (k', v') :: t, k => if k = k' then some v' else btGet t k

/-- `BTreeMap::remove` on an association list sorted strictly by key. -/
def btRemove {β : Type} : List (Nat × β) → Nat → List (Nat × β)
  | [], _ => []
  | (k', v') :: t, k => if k = k' then t else (k', v') :: btRemove t k

/-- Well-formedness of a `BTreeMap` model: keys strictly increasing. -/
def btSorted {β : Type} (l : List (Nat × β)) : Prop :=
  l.Pairwise (fun a b => a.1 < b.1)

/-- `bimap::BiMap::get_by_left` on the launcher-counter list
(name → id), first match. -/
def lookupLeft : List (String × Nat) → String → Option Nat
  | [], _ => none
  | e :: t, k => if e.1 = k then some e.2 else lookupLeft t k

/-- `bimap::BiMap::get_by_right` on the launcher-counter list
(id → name), first match. -/
def lookupNameOfId : List (String × Nat) → Nat → Option String
  | [], _ => none
  | e :: t, i => if e.2 = i then some e.1 else lookupNameOfId t i

/-- `bimap::BiMap::get_by_right` on the source-directory map
(directory path → priority index). -/
def lookupIdxOfDir : List (Nat × String) → String → Option Nat
  | [], _ => none
  | e :: t, d => if e.2 = d then some e.1 else lookupIdxOfDir t d

/-- `LauncherCounter` (src/main.rs): monotonic id allocator with a
bidirectional name↔id map; `main` constructs it with `count = 12`, just past
the reserved root id 0 and category ids `1..=11`. -/
structure LauncherCounter where
  count : Nat
  map : List (String × Nat)

/-- `LauncherCounter::get_index`: return the existing id for `key`, or
allocate `count` and record the mapping. -/
def LauncherCounter.get_index (c : LauncherCounter) (key : String) :
    Nat × LauncherCounter :=
  match lookupLeft c.map key with
  | some i => (i, c)
  | none => (c.count, { count := c.count + 1, map := (key, c.count) :: c.map })

/-- `LauncherCounter::get_path`: reverse lookup from item id to name. -/
def LauncherCounter.get_path (c : LauncherCounter) (index : Nat) : Option String :=
  lookupNameOfId c.map index

/-- D-Bus property values as produced by `get_property` and the layout
serialization. -/
inductive PropValue where
  | str (s : String)
  | bool (b : Bool)
  | int (i : Int)
  | bytes (bs : List Nat)
  | strList (l : List String)
deriving DecidableEq

/-- Serialization of a `MenuProps` record into the string-keyed property bag
sent over the wire (the source round-trips through zvariant encoding into a
`HashMap<String, OwnedValue>`; the bag's key set and values are what matter,
modelled as a fixed-order association list). -/
def encodeProps (p : MenuProps) : List (String × PropValue) :=
  [("label", .str p.label), ("visible", .bool p.visible),
   ("enabled", .bool p.enabled), ("icon-name", .str p.icon_name),
   ("icon-data", .bytes p.icon_data), ("type", .str p.entry_type),
   ("children-display", .str p.children_display)]

/-- The property filter of `get_layout`/`get_group_properties`: an empty name
list keeps everything, otherwise only the named keys are kept. -/
def filterProps (names : List String) (l : List (String × PropValue)) :
    List (String × PropValue) :=
  l.filter (fun kv => names.isEmpty || names.contains kv.1)

/-- One node of the dbusmenu layout tree: `(id, filtered properties,
children)`. -/
inductive LayoutEntry where
  | node (id : Nat) (props : List (String × PropValue))
      (children : List LayoutEntry)

/-- The child-collection loop of `get_layout` (src/main.rs lines 191-199): a
child is recursed into only if it currently has stored properties; `rec` is
the recursive call at the next depth. -/
def collectChildren (pr : Nat → Option MenuProps) (rec : Nat → Option LayoutEntry) :
    List Nat → Option (List LayoutEntry)
  | [] => some []
  | c :: cs =>
    match pr c with
    | none => collectChildren pr rec cs
    | some _ =>
      match rec c, collectChildren pr rec cs with
      | some e, some rest => some (e :: rest)
      | _, _ => none

/-- `get_layout` (the free function, src/main.rs lines 164-202).  The source
recurses along the `children` map without a bound, terminating because the map
is acyclic; the embedding adds a `fuel` bound, with `none` marking fuel
exhaustion (the fuel-independence theorems below show any `fuel` above the
tree height gives the same result).  `none` also models the `log_expect`
panic when the root has no stored properties.  `next` is `next_depth`:
`depth - 1` when `depth > 0`, otherwise `depth` itself; children are
collected only when `next_depth != 0`. -/
def getLayoutF (ch : Nat → Option (List Nat)) (pr : Nat → Option MenuProps)
    (names : List String) : Nat → Nat → Int → Option LayoutEntry
  | 0, _, _ => none
  | fuel + 1, root, depth =>
    match pr root with
    | none => none
    | some rootProps =>
      let next : Int := if 0 < depth then depth - 1 else depth
      let kidsOpt : Option (List LayoutEntry) :=
        if next = 0 then some []
        else
          match ch root with
          | none => some []
          | some l => collectChildren pr (fun c => getLayoutF ch pr names fuel c next) l
      match kidsOpt with
      | none => none
      | some kids =>
        some (.node root (filterProps names (encodeProps rootProps)) kids)

/-- The full recursive layout tree below a node (depth never limited): the
reference object for the `depth < 0` behaviour of `get_layout`, with the same
fuel convention and the same stored-properties filter on children. -/
def fullTreeF (ch : Nat → Option (List Nat)) (pr : Nat → Option MenuProps)
    (names : List String) : Nat → Nat → Option LayoutEntry
  | 0, _ => none
  | fuel + 1, root =>
    match pr root with
    | none => none
    | some rootProps =>
      let kidsOpt : Option (List LayoutEntry) :=
        match ch root with
        | none => some []
        | some l => collectChildren pr (fun c => fullTreeF ch pr names fuel c) l
      match kidsOpt with
      | none => none
      | some kids =>
        some (.node root (filterProps names (encodeProps rootProps)) kids)

/-- Truncation of a layout tree to `n` levels below the root. -/
def truncateEntry : Nat → LayoutEntry → LayoutEntry
  | 0, .node i p _ => .node i p []
  | n + 1, .node i p cs => .node i p (cs.map (truncateEntry n))

/-- The `children` map is layered: every edge strictly decreases a rank.
This is the acyclicity property making the source's unbounded layout recursion
terminate (in the running program the rank is the height: items 0, categories
1, root 2). -/
def Layered (ch : Nat → Option (List Nat)) (rank : Nat → Nat) : Prop :=
  ∀ i l, ch i = some l → ∀ j ∈ l, rank j < rank i

/-- Lexicographic comparison of character lists by code point — the order
Rust's `sort_by_key` uses on `String` keys (UTF-8 byte order coincides with
code-point order). -/
def charsLt : List Char → List Char → Bool
  | [], [] => false
  | [], _ :: _ => true
  | _ :: _, [] => false
  | a :: as, b :: bs =>
    if a.toNat < b.toNat then true
    else if b.toNat < a.toNat then false
    else charsLt as bs

/-- String comparison on the underlying character lists. -/
def strLt (a b : String) : Bool := charsLt a.data b.data

/-- Stable insertion into a list sorted by the string key: an element is
placed after every element whose key is not greater, so equal keys keep their
relative order (the result of any stable sort by key, which is what Rust's
`sort_by_key` performs). -/
def insSorted (x : String × Nat) : List (String × Nat) → List (String × Nat)
  | [] => [x]
  | y :: ys => if strLt x.1 y.1 then x :: y :: ys else y :: insSorted x ys

/-- Stable sort of `(label, id)` pairs by label. -/
def sortPairs (l : List (String × Nat)) : List (String × Nat) :=
  l.foldl (fun acc x => insSorted x acc) []

/-- Decoration of a children list with the sort keys `props[k].label`;
`none` models the `log_expect` panic when a child has no stored
properties. -/
def labelPairs (pr : Nat → Option MenuProps) : List Nat → Option (List (String × Nat))
  | [] => some []
  | k :: ks =>
    match pr k, labelPairs pr ks with
    | some q, some rest => some ((q.label, k) :: rest)
    | _, _ => none

/-- `Vec::sort_by_key` with key `props[k].label` (stable sort by current
label): decorate, stable-sort, undecorate. -/
def sortByLabel (pr : Nat → Option MenuProps) (l : List Nat) : Option (List Nat) :=
  match labelPairs pr l with
  | none => none
  | some pairs => some ((sortPairs pairs).map (fun x => x.2))

/-- One iteration of the `update_category_props` loop at category id `i`:
set the category's `visible` flag to "children list non-empty", then re-sort
its children by label. -/
def ucpStep (st : (Nat → Option (List Nat)) × (Nat → Option MenuProps)) (i : Nat) :
    Option ((Nat → Option (List Nat)) × (Nat → Option MenuProps)) :=
  match st.2 i, st.1 i with
  | some p, some l =>
    let pr1 := fupd st.2 i { p with visible := !l.isEmpty }
    match sortByLabel pr1 l with
    | none => none
    | some l' => some (fupd st.1 i l', pr1)
  | _, _ => none

/-- The list of category ids the `update_category_props` loop walks
(`for i in 1..12`). -/
def catIds : List Nat := [1, 2, 3, 4, 5, 6, 7, 8, 9, 10, 11]

/-- `update_category_props` (src/main.rs lines 204-228): for every category id
`1..=11`, set `visible` to "has at least one child" and re-sort the children
by current label.  `none` models the `log_expect` panics on missing map
entries. -/
def update_category_props (ch : Nat → Option (List Nat))
    (pr : Nat → Option MenuProps) :
    Option ((Nat → Option (List Nat)) × (Nat → Option MenuProps)) :=
  catIds.foldlM ucpStep (ch, pr)

/-- The typed D-Bus errors of the menu interface (`MenuError`). -/
inductive MenuError where
  | launcherIndexNotFound
  | propertyNotFound
deriving DecidableEq

/-- The signals the menu interface emits, in emission order. -/
inductive Signal where
  | itemsPropertiesUpdated (updated : List (Nat × MenuProps))
  | layoutUpdated (revision : Nat) (parent : Nat)
  | itemActivationRequested (iid : Nat) (timestamp : Nat)
deriving DecidableEq

/-- An input path, pre-split the way the source uses `PathBuf`: `full` is the
whole path string (stored into tombstones), `parent` the parent directory
(`None` when the path has none), `stem` the file stem
(`file_stem().unwrap_or_default()`). -/
structure FsPath where
  full : String
  parent : Option String
  stem : String

/-- The state of `AppMenuDbusMenu`: revision counter, category→children map,
id→properties map, the per-name priority cache, the directory priority map,
and the id allocator. -/
structure AppMenuDbusMenu where
  revision : Nat
  children : Nat → Option (List Nat)
  props : Nat → Option MenuProps
  cache : String → Option (List (Nat × Launcher))
  path_map : List (Nat × String)
  counter : LauncherCounter

/-- The modulus of the `u32` revision counter. -/
def u32Mod : Nat := 4294967296

/-- `AppMenuDbusMenu::add_launcher_path` (src/main.rs lines 410-502).
`decoded` is the result of `p.is_file()` guarding
`desktop::launcher_for_entry(p, locale)` (file IO, hence a parameter):
`none` models a non-file path or a decode failure, upon which nothing
happens.  Note the order of the source: the id is allocated and the cache
bucket is created by `entry().or_default()` before the parent-directory
check. -/
def addLauncherPath (render : String → List Nat) (s : AppMenuDbusMenu)
    (p : FsPath) (decoded : Option Launcher) :
    Option (AppMenuDbusMenu × List Signal) :=
  match decoded with
  | none => some (s, [])
  | some launcher =>
    let cache_name := p.stem
    let idxCounter := s.counter.get_index cache_name
    let menu_idx := idxCounter.1
    let counter' := idxCounter.2
    let bucket := (s.cache cache_name).getD []
    let cache1 := fupd s.cache cache_name bucket
    match p.parent with
    | none => some ({ s with counter := counter', cache := cache1 }, [])
    | some source =>
      match lookupIdxOfDir s.path_map source with
      | none => some ({ s with counter := counter', cache := cache1 }, [])
      | some prio_idx =>
        let existing := bucket.head?
        let cache2 := fupd cache1 cache_name (btInsert bucket prio_idx launcher)
        let promote : Bool :=
          match existing with
          | none => true
          | some ex => decide (prio_idx ≤ ex.1) && launcher_updated launcher ex.2
        if promote then
          let ch0Opt : Option (Nat → Option (List Nat)) :=
            match existing with
            | none => some s.children
            | some ex =>
              let catOld := category_idx (ex.2.categories.head?.getD Category.uncategorized)
              match s.children catOld with
              | none => none
              | some ol => some (fupd s.children catOld (ol.filter (fun i => i != menu_idx)))
          match ch0Opt with
          | none => none
          | some children1 =>
            let entryProps := launcher_props render launcher
            let props1 := fupd s.props menu_idx entryProps
            let catNew := category_idx (launcher.categories.head?.getD Category.uncategorized)
            match children1 catNew with
            | none => none
            | some nl =>
              let children2 := fupd children1 catNew (nl ++ [menu_idx])
              let revision' := (s.revision + 1) % u32Mod
              match update_category_props children2 props1 with
              | none => none
              | some st =>
                some ({ revision := revision', children := st.1, props := st.2,
                        cache := cache2, path_map := s.path_map, counter := counter' },
                      [Signal.itemsPropertiesUpdated [(menu_idx, entryProps)],
                       Signal.layoutUpdated revision' 0])
        else
          some ({ s with counter := counter', cache := cache2 }, [])

/-- `AppMenuDbusMenu::remove_launcher_path` (src/main.rs lines 505-593).
As in the source, the id is allocated and the cache bucket created by
`entry().or_default()` before the parent-directory and slot checks; removal
of the last record installs a tombstone at the removed slot; the outgoing
record's id is unconditionally removed from its effective category's
children; the revealed head entry is promoted only when its index is `≤` the
removed index and it differs in displayed fields. -/
def removeLauncherPath (render : String → List Nat) (s : AppMenuDbusMenu)
    (p : FsPath) : Option (AppMenuDbusMenu × List Signal) :=
  let cache_name := p.stem
  let idxCounter := s.counter.get_index cache_name
  let menu_idx := idxCounter.1
  let counter' := idxCounter.2
  let bucket := (s.cache cache_name).getD []
  let cache1 := fupd s.cache cache_name bucket
  match p.parent with
  | none => some ({ s with counter := counter', cache := cache1 }, [])
  | some source =>
    match lookupIdxOfDir s.path_map source with
    | none => some ({ s with counter := counter', cache := cache1 }, [])
    | some prio_idx =>
      match btGet bucket prio_idx with
      | none => some ({ s with counter := counter', cache := cache1 }, [])
      | some entry =>
        let bucket1 := btRemove bucket prio_idx
        let bucket2 :=
          if bucket1.isEmpty then btInsert bucket1 prio_idx (tombstone_launcher p.full cache_name)
          else bucket1
        let cache2 := fupd cache1 cache_name bucket2
        let catOld := category_idx (entry.categories.head?.getD Category.uncategorized)
        match s.children catOld with
        | none => none
        | some ol =>
          let children1 := fupd s.children catOld (ol.filter (fun i => i != menu_idx))
          match bucket2.head? with
          | none => none
          | some r_entry =>
            let remain := launcher_props render r_entry.2
            if decide (r_entry.1 ≤ prio_idx) && launcher_updated r_entry.2 entry then
              let props1 := fupd s.props menu_idx remain
              let catNew := category_idx (r_entry.2.categories.head?.getD Category.uncategorized)
              match children1 catNew with
              | none => none
              | some nl =>
                let children2 := fupd children1 catNew (nl ++ [menu_idx])
                let revision' := (s.revision + 1) % u32Mod
                match update_category_props children2 props1 with
                | none => none
                | some st =>
                  some ({ revision := revision', children := st.1, props := st.2,
                          cache := cache2, path_map := s.path_map, counter := counter' },
                        [Signal.itemsPropertiesUpdated [(menu_idx, remain)],
                         Signal.layoutUpdated revision' 0])
            else
              some ({ s with counter := counter', cache := cache2, children := children1 }, [])

/-- Splitting a character list at every occurrence of `sep`: `n` separators
give `n + 1` pieces, so the result is never empty and the empty input gives
one empty piece — the semantics of Rust's `str::split` with a one-character
pattern. -/
def splitChars (sep : Char) : List Char → List (List Char)
  | [] => [[]]
  | c :: cs =>
    match splitChars sep cs with
    | [] => [[]]
    | g :: gs => if c = sep then [] :: g :: gs else (c :: g) :: gs

/-- Rust's `exec.split(" ")`: split the string on every space character. -/
def splitSpaces (s : String) : List String :=
  (splitChars ' ' s.data).map String.mk

/-- `AppMenuDbusMenu::event` (src/main.rs lines 270-314).  Returns the
emitted signals and the spawned process invocation `(program, arguments)`, if
any; `none` models the `log_expect` panics (bucket missing or empty for a
mapped name).  For `"clicked"` the activation signal is emitted first, then
the id is resolved to a name and the active record's command is split on the
space character, the first token popped as the program.  Rust's `split(" ")`
yields one (empty) token on the empty string, so the collected token deque is
never empty and the `is_empty` branch (warn, no spawn) is dead. -/
def event (s : AppMenuDbusMenu) (item_id : Nat) (event_id : String)
    (timestamp : Nat) : Option (List Signal × Option (String × List String)) :=
  if event_id = "clicked" then
    let sigs := [Signal.itemActivationRequested item_id timestamp]
    match s.counter.get_path item_id with
    | some target_path =>
      match s.cache target_path with
      | none => none
      | some bucket =>
        match bucket.head? with
        | none => none
        | some target_entry =>
          match splitSpaces target_entry.2.exec with
          | [] => some (sigs, none)
          | prog :: args => some (sigs, some (prog, args))
    | none => some (sigs, none)
  else some ([], none)

/-- The fixed supported property keys of `get_property`. -/
def supportedKeys : List String :=
  ["type", "label", "enabled", "visible", "icon-name", "icon-data",
   "shortcut", "toggle-type", "toggle-state", "children-display"]

/-- The value `get_property` returns for each supported key, per the spec:
the stored value for the stored keys, the documented constant for the
constant keys (`type`, `shortcut`, `toggle-type`, `toggle-state`). -/
def specPropertyValue (ip : MenuProps) (name : String) : PropValue :=
  match name with
  | "type" => .str "standard"
  | "label" => .str ip.label
  | "enabled" => .bool ip.enabled
  | "visible" => .bool ip.visible
  | "icon-name" => .str ip.icon_name
  | "icon-data" => .bytes ip.icon_data
  | "shortcut" => .strList []
  | "toggle-type" => .str ""
  | "toggle-state" => .int (-1)
  | "children-display" => .str ip.children_display
  | _ => .str ""

/-- `AppMenuDbusMenu::get_property` (src/main.rs lines 365-407). -/
def get_property (s : AppMenuDbusMenu) (item_id : Nat) (name : String) :
    Except MenuError PropValue :=
  match s.props item_id with
  | some ip =>
    match name with
    | "type" => .ok (.str "standard")
    | "label" => .ok (.str ip.label)
    | "enabled" => .ok (.bool ip.enabled)
    | "visible" => .ok (.bool ip.visible)
    | "icon-name" => .ok (.str ip.icon_name)
    | "icon-data" => .ok (.bytes ip.icon_data)
    | "shortcut" => .ok (.strList [])
    | "toggle-type" => .ok (.str "")
    | "toggle-state" => .ok (.int (-1))
    | "children-display" => .ok (.str ip.children_display)
    | _ => .error MenuError.propertyNotFound
  | none => .error MenuError.launcherIndexNotFound

/-- Well-formedness of the id allocator, established by `main`'s initial
`LauncherCounter { count: 12, map: BiMap::new() }` and preserved by
`get_index`: every recorded id lies in `[12, count)` and both columns of the
map are duplicate-free. -/
def CounterWF (c : LauncherCounter) : Prop :=
  12 ≤ c.count ∧ (∀ e ∈ c.map, 12 ≤ e.2 ∧ e.2 < c.count) ∧
    c.map.Pairwise (fun a b => a.1 ≠ b.1 ∧ a.2 ≠ b.2)

/-- A small concrete state for the C8 witness: id 5 stores properties, id 7
does not. -/
def c8State : AppMenuDbusMenu :=
  { revision := 0
    children := fun _ => none
    props := fun k => if k = 5 then some root_props else none
    cache := fun _ => none
    path_map := []
    counter := { count := 12, map := [] } }

/-- The trivial icon renderer used by the concrete evaluations (icon
rasterization failure / no icon path: empty PNG bytes). -/
def noRender : String → List Nat := fun _ => []

/-- The concrete state exhibiting the C3 violation: one known source
directory, empty cache, startup counter. -/
def c3State : AppMenuDbusMenu :=
  { revision := 0
    children := fun k => if k ≤ 11 then some [] else none
    props := fun _ => none
    cache := fun _ => none
    path_map := [(0, "dir0")]
    counter := { count := 12, map := [] } }

/-- The removal input for C3: a path in a known directory whose name was
never observed. -/
def c3Path : FsPath :=
  { full := "dir0/ghost.desktop", parent := some "dir0", stem := "ghost" }

/-- The concrete state for the C4 counterexample. -/
def c4State : AppMenuDbusMenu :=
  { revision := 3
    children := fun k => if k ≤ 11 then some [] else none
    props := fun _ => none
    cache := fun _ => none
    path_map := [(0, "dirA")]
    counter := { count := 12, map := [] } }

/-- The removal input for the C4 counterexample: known directory, unknown
slot. -/
def c4Path : FsPath :=
  { full := "dirA/ghost2.desktop", parent := some "dirA", stem := "ghost2" }

/-- The index-0 (user directory) record of the C1 scenario. -/
def c1R0 : Launcher :=
  { path := "u/a.desktop", name := "Alpha", categories := [Category.system],
    exec := "alpha", icon := none, display := true }

/-- The index-2 (system directory) record of the C1 scenario, differing from
`c1R0` in displayed fields (name and category). -/
def c1R2 : Launcher :=
  { path := "s2/a.desktop", name := "Beta", categories := [Category.office],
    exec := "beta", icon := none, display := true }

/-- The C1 scenario state: name "a" (item id 12) has records at directory
indices 0 and 2; the index-0 record is active and displayed under its
category (System, id 10). -/
def c1State : AppMenuDbusMenu :=
  { revision := 7
    children := fun k =>
      if k = 0 then some [1, 2, 3, 4, 5, 6, 7, 8, 9, 10, 11]
      else if k = 10 then some [12]
      else if k ≤ 11 then some []
      else none
    props := fun k =>
      if k = 12 then some (launcher_props noRender c1R0)
      else if k = 0 then some root_props
      else none
    cache := fun n => if n = "a" then some [(0, c1R0), (2, c1R2)] else none
    path_map := [(0, "u"), (2, "s2")]
    counter := { count := 13, map := [("a", 12)] }
  }

/-- The removal input for C1: the index-0 record's path. -/
def c1Path : FsPath :=
  { full := "u/a.desktop", parent := some "u", stem := "a" }

/-- The C7 scenario state: name "a" is mapped to id 12 and its active record
is a tombstone, whose command string is empty. -/
def c7State : AppMenuDbusMenu :=
  { revision := 0
    children := fun k => if k ≤ 11 then some [] else none
    props := fun _ => none
    cache := fun n => if n = "a" then some [(0, tombstone_launcher "u/a.desktop" "a")] else none
    path_map := [(0, "u")]
    counter := { count := 13, map := [("a", 12)] }
  }

/-- The state after only the bookkeeping prefix of `add_launcher_path` /
`remove_launcher_path` ran: the id allocator looked up (or allocated) the
name and `cache.entry(name).or_default()` materialized the bucket; revision,
children and properties untouched. -/
def withBookkeeping (s : AppMenuDbusMenu) (stem : String)
    (cache' : String → Option (List (Nat × Launcher))) : AppMenuDbusMenu :=
  { s with counter := (s.counter.get_index stem).2, cache := cache' }

/-- The active record for the C5 witness. -/
def c5A : Launcher :=
  { path := "u/a.desktop", name := "Alpha", categories := [Category.office],
    exec := "alpha", icon := none, display := true }

/-- The incoming record for the C5 witness: identical to `c5A` in every
displayed field, differing only in the command string. -/
def c5L : Launcher :=
  { path := "u/a.desktop", name := "Alpha", categories := [Category.office],
    exec := "alpha --new", icon := none, display := true }

/-- The C5 witness state: name "a" has the active record `c5A` at index 0. -/
def c5State : AppMenuDbusMenu :=
  { revision := 4
    children := fun k => if k ≤ 11 then some [] else none
    props := fun k => if k = 12 then some (launcher_props noRender c5A) else none
    cache := fun n => if n = "a" then some [(0, c5A)] else none
    path_map := [(0, "u")]
    counter := { count := 13, map := [("a", 12)] } }

/-- The input path for the C5 witness. -/
def c5Path : FsPath :=
  { full := "u/a.desktop", parent := some "u", stem := "a" }

/-- Concrete children map for the C10 witness: category 3 holds items 12 and
13 (in unsorted label order), other categories empty. -/
def c10Ch : Nat → Option (List Nat) :=
  fun k => if k = 0 then some [1, 2, 3] else if k = 3 then some [12, 13]
    else if k ≤ 11 then some [] else none

/-- Concrete properties map for the C10 witness: item 12 is labelled "B",
item 13 "A". -/
def c10Pr : Nat → Option MenuProps :=
  fun k => if k = 12 then some { root_props with label := "B" }
    else if k = 13 then some { root_props with label := "A" }
    else if k ≤ 11 then some root_props else none

/-- Children map for the C2 counterexample and witness: node 0 has the single
child 1, which is a leaf. -/
def c2Ch : Nat → Option (List Nat) := fun k => if k = 0 then some [1] else none

/-- Properties map for the C2 counterexample and witness: nodes 0 and 1 have
stored properties. -/
def c2Pr : Nat → Option MenuProps := fun k => if k ≤ 1 then some root_props else none

/-- Height function witnessing that `c2Ch` is layered. -/
def c2Rank : Nat → Nat := fun k => if k = 0 then 1 else 0

theorem btGet_mem {β : Type} {l : List (Nat × β)} {k : Nat} {v : β}
    (h : btGet l k = some v) : (k, v) ∈ l := by
  induction l with
  | nil => simp [btGet] at h
  | cons e t ih =>
    obtain ⟨k', v'⟩ := e
    by_cases hk : k = k'
    · subst hk
      simp [btGet] at h
      simp [h]
    · simp [btGet, hk] at h
      exact List.mem_cons_of_mem _ (ih h)

theorem btSorted_head_of_get_zero {β : Type} {l : List (Nat × β)} {r : β}
    (hs : btSorted l) (h : btGet l 0 = some r) : l.head? = some (0, r) := by
  cases l with
  | nil => simp [btGet] at h
  | cons e t =>
    obtain ⟨k, v⟩ := e
    by_cases hk : (0 : Nat) = k
    · subst hk
      simp [btGet] at h
      simp [h]
    · simp [btGet, hk] at h
      have hmem := btGet_mem h
      have := (List.pairwise_cons.mp hs).1 _ hmem
      omega

theorem btInsert_mem {β : Type} {l : List (Nat × β)} {k : Nat} {v : β} {b : Nat × β}
    (h : b ∈ btInsert l k v) : b = (k, v) ∨ b ∈ l := by
  induction l with
  | nil => simp [btInsert] at h; simp [h]
  | cons e t ih =>
    obtain ⟨k', v'⟩ := e
    by_cases h1 : k < k'
    · simp only [btInsert, if_pos h1, List.mem_cons] at h ⊢
      tauto
    · by_cases h2 : k = k'
      · subst h2
        simp [btInsert, if_neg h1, List.mem_cons] at h ⊢
        tauto
      · simp only [btInsert, if_neg h1, if_neg h2, List.mem_cons] at h ⊢
        rcases h with h | h
        · tauto
        · rcases ih h with h' | h' <;> tauto

theorem btSorted_insert {β : Type} {l : List (Nat × β)} (k : Nat) (v : β)
    (hs : btSorted l) : btSorted (btInsert l k v) := by
  induction l with
  | nil => simp [btInsert, btSorted]
  | cons e t ih =>
    obtain ⟨k', v'⟩ := e
    rw [btSorted, List.pairwise_cons] at hs
    by_cases h1 : k < k'
    · rw [btSorted, btInsert]
      simp only [if_pos h1]
      rw [List.pairwise_cons]
      constructor
      · intro b hb
        rcases List.mem_cons.mp hb with h' | h'
        · simp [h']; omega
        · have := hs.1 _ h'
          simp at this ⊢
          omega
      · rw [List.pairwise_cons]
        exact hs
    · by_cases h2 : k = k'
      · rw [btSorted, btInsert]
        simp only [if_neg h1, if_pos h2]
        rw [List.pairwise_cons]
        subst h2
        exact hs
      · rw [btSorted, btInsert]
        simp only [if_neg h1, if_neg h2]
        rw [List.pairwise_cons]
        constructor
        · intro b hb
          rcases btInsert_mem hb with h' | h'
          · simp [h']; omega
          · exact hs.1 _ h'
        · exact ih hs.2

theorem btGet_insert_self {β : Type} (l : List (Nat × β)) (k : Nat) (v : β) :
    btGet (btInsert l k v) k = some v := by
  induction l with
  | nil => simp [btInsert, btGet]
  | cons e t ih =>
    obtain ⟨k', v'⟩ := e
    by_cases h1 : k < k'
    · simp [btInsert, h1, btGet]
    · by_cases h2 : k = k'
      · simp [btInsert, h1, h2, btGet]
      · simp [btInsert, btGet, h1, h2, ih]

theorem btGet_insert_ne {β : Type} (l : List (Nat × β)) {k j : Nat} (v : β)
    (h : j ≠ k) : btGet (btInsert l k v) j = btGet l j := by
  induction l with
  | nil => simp [btInsert, btGet, h]
  | cons e t ih =>
    obtain ⟨k', v'⟩ := e
    by_cases h1 : k < k'
    · simp [btInsert, h1, btGet, h]
    · by_cases h2 : k = k'
      · subst h2
        simp [btInsert, h1, btGet, h]
      · by_cases h3 : j = k'
        · simp [btInsert, h1, h2, btGet, h3]
        · simp [btInsert, h1, h2, btGet, h3, ih]

/-- C9: in a well-formed (strictly key-sorted) priority-cache bucket holding
records at directory indices 0 and 2, the bucket's first entry — the active
record read by `iter().next()` — is the index-0 record; and inserting records
at indices 0 and 2 in either order always leaves the index-0 record first. -/
theorem c9_priority_law {b : List (Nat × Launcher)} {r0 r2 : Launcher}
    (hs : btSorted b) (h0 : btGet b 0 = some r0) (_hg2 : btGet b 2 = some r2) :
    b.head? = some (0, r0) ∧
      (∀ b' : List (Nat × Launcher), btSorted b' →
        (btInsert (btInsert b' 0 r0) 2 r2).head? = some (0, r0) ∧
        (btInsert (btInsert b' 2 r2) 0 r0).head? = some (0, r0)) := by
  constructor
  · exact btSorted_head_of_get_zero hs h0
  · intro b' hs'
    constructor
    · apply btSorted_head_of_get_zero
      · exact btSorted_insert _ _ (btSorted_insert _ _ hs')
      · rw [btGet_insert_ne _ _ (by omega)]
        exact btGet_insert_self _ _ _
    · apply btSorted_head_of_get_zero
      · exact btSorted_insert _ _ (btSorted_insert _ _ hs')
      · exact btGet_insert_self _ _ _

/-- Witness for C9 at a concrete bucket. -/
theorem c9_priority_law_witness :
    ([(0, tombstone_launcher "a" "x"), (2, tombstone_launcher "b" "y")].head? =
      some (0, tombstone_launcher "a" "x")) := by
  exact (@c9_priority_law [(0, tombstone_launcher "a" "x"), (2, tombstone_launcher "b" "y")]
    (tombstone_launcher "a" "x") (tombstone_launcher "b" "y")
    (by simp [btSorted]) rfl rfl).1

theorem lookupLeft_mem {m : List (String × Nat)} {k : String} {i : Nat}
    (h : lookupLeft m k = some i) : (k, i) ∈ m := by
  induction m with
  | nil => simp [lookupLeft] at h
  | cons e t ih =>
    obtain ⟨k', i'⟩ := e
    by_cases hk : k' = k
    · subst hk
      simp [lookupLeft] at h
      simp [h]
    · simp [lookupLeft, hk] at h
      exact List.mem_cons_of_mem _ (ih h)

theorem lookupLeft_distinct {m : List (String × Nat)} {k1 k2 : String} {i1 i2 : Nat}
    (hp : m.Pairwise (fun a b => a.1 ≠ b.1 ∧ a.2 ≠ b.2))
    (h1 : lookupLeft m k1 = some i1) (h2 : lookupLeft m k2 = some i2)
    (hk : k1 ≠ k2) : i1 ≠ i2 := by
  have hm1 := lookupLeft_mem h1
  have hm2 := lookupLeft_mem h2
  have hsym : Symmetric (fun (a b : String × Nat) => a.1 ≠ b.1 ∧ a.2 ≠ b.2) := by
    intro a b hab
    exact ⟨hab.1.symm, hab.2.symm⟩
  have := hp.forall hsym hm1 hm2 (by simp [Prod.ext_iff]; intro h; exact absurd h hk)
  exact this.2

theorem lookupLeft_none_not_mem {m : List (String × Nat)} {k : String}
    (h : lookupLeft m k = none) : ∀ i, (k, i) ∉ m := by
  intro i hm
  induction m with
  | nil => simp at hm
  | cons e t ih =>
    obtain ⟨k', i'⟩ := e
    by_cases hk : k' = k
    · subst hk
      simp [lookupLeft] at h
    · simp [lookupLeft, hk] at h
      rcases List.mem_cons.mp hm with h' | h'
      · exact hk (congrArg Prod.fst h').symm
      · exact ih h h'

theorem counterWF_get_index {c : LauncherCounter} (key : String)
    (hwf : CounterWF c) : CounterWF (c.get_index key).2 := by
  obtain ⟨hc, hv, hp⟩ := hwf
  cases h : lookupLeft c.map key with
  | some i => simp only [LauncherCounter.get_index, h]; exact ⟨hc, hv, hp⟩
  | none =>
    simp only [LauncherCounter.get_index, h]
    refine ⟨by simp; omega, ?_, ?_⟩
    · intro e he
      rcases List.mem_cons.mp he with h' | h'
      · simp [h']; omega
      · have := hv _ h'
        simp only []
        omega
    · rw [List.pairwise_cons]
      refine ⟨?_, hp⟩
      intro e he
      constructor
      · intro hkey
        have : e = (key, e.2) := by
          rcases e with ⟨ek, ei⟩
          simp at hkey
          simp [hkey]
        rw [this] at he
        exact lookupLeft_none_not_mem h e.2 he
      · have := hv _ he
        simp only []
        omega

/-- C6: the identifier allocator is a stable bijection.  In any well-formed
counter state: (1) a second `get_index` call with the same name returns the
same id and leaves the counter unchanged; (2) every returned id is `≥ 12`,
above the reserved root id 0 and category ids `1..=11`; (3) ids returned for
two distinct names are distinct; (4) an established name→id mapping is never
changed by any later `get_index` call. -/
theorem c6_counter_bijection (c : LauncherCounter) (key k k1 k2 : String) (i : Nat)
    (hwf : CounterWF c) :
    ((c.get_index key).2.get_index key = ((c.get_index key).1, (c.get_index key).2)) ∧
    (12 ≤ (c.get_index key).1) ∧
    (k1 ≠ k2 → ((c.get_index k1).2.get_index k2).1 ≠ (c.get_index k1).1) ∧
    (lookupLeft c.map k = some i → lookupLeft ((c.get_index key).2).map k = some i) := by
  obtain ⟨hc, hv, hp⟩ := hwf
  refine ⟨?_, ?_, ?_, ?_⟩
  · unfold LauncherCounter.get_index
    cases h : lookupLeft c.map key with
    | some i => simp [h]
    | none => simp [lookupLeft]
  · unfold LauncherCounter.get_index
    cases h : lookupLeft c.map key with
    | some j =>
      have := hv _ (lookupLeft_mem h)
      simp [h]
      omega
    | none => simp [h]; omega
  · intro hne
    unfold LauncherCounter.get_index
    cases h1 : lookupLeft c.map k1 with
    | some i1 =>
      simp only [h1]
      cases h2 : lookupLeft c.map k2 with
      | some i2 =>
        simp [h2]
        exact (lookupLeft_distinct hp h2 h1 hne.symm)
      | none =>
        have := hv _ (lookupLeft_mem h1)
        simp [h2]
        omega
    | none =>
      simp only [h1]
      have hk2 : lookupLeft ((k1, c.count) :: c.map) k2 = lookupLeft c.map k2 := by
        simp [lookupLeft, hne]
      cases h2 : lookupLeft c.map k2 with
      | some i2 =>
        have := hv _ (lookupLeft_mem h2)
        simp [hk2, h2]
        omega
      | none => simp [hk2, h2]
  · intro hk
    unfold LauncherCounter.get_index
    cases h : lookupLeft c.map key with
    | some j => simp [hk]
    | none =>
      have hkey : key ≠ k := by
        intro heq
        subst heq
        rw [h] at hk
        exact Option.noConfusion hk
      simp [lookupLeft, hkey, hk]

/-- Witness for C6 at the startup counter (`count = 12`, empty map) after one
allocation. -/
theorem c6_counter_bijection_witness :
    ((({ count := 12, map := [] } : LauncherCounter).get_index "a").1 = 12 ∧
     ((({ count := 12, map := [] } : LauncherCounter).get_index "a").2.get_index "b").1 = 13) := by
  have h := c6_counter_bijection { count := 12, map := [] } "a" "a" "a" "b" 0
    (by refine ⟨by decide, ?_, ?_⟩ <;> simp)
  refine ⟨by rfl, ?_⟩
  have := h.2.2.1 (by decide)
  revert this
  decide

theorem get_property_char (s : AppMenuDbusMenu) (item_id : Nat) (name : String)
    (ip : MenuProps) (hp : s.props item_id = some ip) :
    get_property s item_id name =
      if name ∈ supportedKeys then .ok (specPropertyValue ip name)
      else .error MenuError.propertyNotFound := by
  unfold get_property
  rw [hp]
  by_cases h1 : name = "type"
  · subst h1; simp [supportedKeys, specPropertyValue]
  by_cases h2 : name = "label"
  · subst h2; simp [supportedKeys, specPropertyValue]
  by_cases h3 : name = "enabled"
  · subst h3; simp [supportedKeys, specPropertyValue]
  by_cases h4 : name = "visible"
  · subst h4; simp [supportedKeys, specPropertyValue]
  by_cases h5 : name = "icon-name"
  · subst h5; simp [supportedKeys, specPropertyValue]
  by_cases h6 : name = "icon-data"
  · subst h6; simp [supportedKeys, specPropertyValue]
  by_cases h7 : name = "shortcut"
  · subst h7; simp [supportedKeys, specPropertyValue]
  by_cases h8 : name = "toggle-type"
  · subst h8; simp [supportedKeys, specPropertyValue]
  by_cases h9 : name = "toggle-state"
  · subst h9; simp [supportedKeys, specPropertyValue]
  by_cases h10 : name = "children-display"
  · subst h10; simp [supportedKeys, specPropertyValue]
  simp [supportedKeys, specPropertyValue, h1, h2, h3, h4, h5, h6, h7, h8, h9, h10]

/-- C8: `GetProperty` returns `LauncherIndexNotFound` (the `ItemNotFound`
error) exactly when the id has no stored properties; returns
`PropertyNotFound` exactly when the id is known but the name is not one of
the fixed supported property keys; and otherwise returns the stored (or
constant) value for the key. -/
theorem c8_get_property_errors (s : AppMenuDbusMenu) (item_id : Nat) (name : String) :
    (get_property s item_id name = .error MenuError.launcherIndexNotFound ↔
      s.props item_id = none) ∧
    (get_property s item_id name = .error MenuError.propertyNotFound ↔
      (s.props item_id).isSome ∧ name ∉ supportedKeys) ∧
    (∀ ip, s.props item_id = some ip → name ∈ supportedKeys →
      get_property s item_id name = .ok (specPropertyValue ip name)) := by
  cases hp : s.props item_id with
  | none =>
    refine ⟨?_, ?_, ?_⟩
    · simp [get_property, hp]
    · simp [get_property, hp]
    · intro ip hip
      exact fun _ => Option.noConfusion hip
  | some ip =>
    have hc := get_property_char s item_id name ip hp
    refine ⟨?_, ?_, ?_⟩
    · rw [hc]
      by_cases hm : name ∈ supportedKeys <;> simp [hm, hp]
    · rw [hc]
      by_cases hm : name ∈ supportedKeys <;> simp [hm, hp]
    · intro ip' hip' hm
      obtain rfl : ip = ip' := Option.some.inj hip'
      rw [hc, if_pos hm]

/-- Witness for C8 at `c8State`. -/
theorem c8_get_property_errors_witness :
    (get_property c8State 5 "label" = .ok (.str "")) ∧
    (get_property c8State 7 "label" = .error MenuError.launcherIndexNotFound) ∧
    (get_property c8State 5 "bogus" = .error MenuError.propertyNotFound) := by
  refine ⟨?_, ?_, ?_⟩
  · exact (c8_get_property_errors c8State 5 "label").2.2 root_props rfl (by decide)
  · exact (c8_get_property_errors c8State 7 "label").1.mpr rfl
  · exact (c8_get_property_errors c8State 5 "bogus").2.1.mpr ⟨by rfl, by decide⟩

/-- C3 failing run: removing a never-seen launcher path trips the
`cache.entry(name).or_default()` performed before the slot check, leaving an
*empty* bucket for the name — the non-emptiness invariant is violated
immediately, with no tombstone installed. -/
theorem c3_empty_bucket_created :
    c3State.cache "ghost" = none ∧
    ∃ out, removeLauncherPath noRender c3State c3Path = some out ∧
      out.2 = [] ∧ out.1.cache "ghost" = some [] := by
  exact ⟨rfl, _, rfl, rfl, rfl⟩

/-- C4 counterexample: a Remove whose priority-cache slot does not exist is
*not* a complete no-op — before the slot check the code allocates an id for
the name (id 12 appears in the counter map) and creates an empty bucket for
it (the claim asserts no bucket is created and no id-to-name mapping is
added). -/
theorem c4_not_full_noop :
    c4State.cache "ghost2" = none ∧
    lookupLeft c4State.counter.map "ghost2" = none ∧
    ∃ out, removeLauncherPath noRender c4State c4Path = some out ∧
      out.1.cache "ghost2" = some [] ∧
      lookupLeft out.1.counter.map "ghost2" = some 12 := by
  exact ⟨rfl, rfl, _, rfl, rfl, rfl⟩

/-- C1 failing run: removing the active index-0 record of a name that also
has a differing record at index 2 does *not* bump the revision and does *not*
promote the index-2 record — the guard `r_entry.0 <= prio_idx` compares the
revealed index 2 against the removed index 0 and fails, so the stored
properties remain those of the removed record, the id is silently dropped
from its category's children, and no signal is emitted (the claim requires
exactly one bump and promotion of the index-2 record). -/
theorem c1_no_promotion_on_remove :
    launcher_updated c1R2 c1R0 = true ∧
    ∃ out, removeLauncherPath noRender c1State c1Path = some out ∧
      out.2 = [] ∧
      out.1.revision = 7 ∧
      out.1.props 12 = some (launcher_props noRender c1R0) ∧
      out.1.props 12 ≠ some (launcher_props noRender c1R2) ∧
      out.1.cache "a" = some [(2, c1R2)] ∧
      out.1.children 10 = some [] := by
  refine ⟨rfl, _, rfl, rfl, rfl, rfl, ?_, rfl, rfl⟩
  decide

/-- C7 failing run: a "clicked" event for an id whose active record has an
empty command emits the activation signal and then hands the *empty* program
name (with no arguments) to the process launcher — `split(" ")` on the empty
string yields one empty token, so the `is_empty` guard (log a warning, spawn
nothing) is dead code and a spawn is attempted (the claim requires an empty
command to spawn nothing). -/
theorem c7_empty_command_spawns :
    (tombstone_launcher "u/a.desktop" "a").exec = "" ∧
    splitSpaces "" = [""] ∧
    event c7State 12 "clicked" 99 =
      some ([Signal.itemActivationRequested 12 99], some ("", [])) := by
  exact ⟨rfl, rfl, rfl⟩

/-- C5: adding a record identical in all displayed fields to the bucket's
current active record is externally unobservable — the revision, the
properties map, and every children list are unchanged and no signal is
emitted; only the priority-cache slot for the path's directory index is
written (and the id allocator runs its bookkeeping lookup). -/
theorem c5_noop_add (render : String → List Nat) (s : AppMenuDbusMenu)
    (p : FsPath) (l : Launcher) (bucket : List (Nat × Launcher))
    (ai : Nat) (a : Launcher) (src : String) (idx : Nat)
    (hparent : p.parent = some src)
    (hdir : lookupIdxOfDir s.path_map src = some idx)
    (hbucket : s.cache p.stem = some bucket)
    (hhead : bucket.head? = some (ai, a))
    (hsame : launcher_updated l a = false) :
    ∃ s', addLauncherPath render s p (some l) = some (s', []) ∧
      s'.revision = s.revision ∧
      s'.props = s.props ∧
      s'.children = s.children ∧
      s'.cache p.stem = some (btInsert bucket idx l) ∧
      (∀ n, n ≠ p.stem → s'.cache n = s.cache n) ∧
      s'.path_map = s.path_map := by
  have hrun : addLauncherPath render s p (some l) =
      some (withBookkeeping s p.stem
        (fupd (fupd s.cache p.stem bucket) p.stem (btInsert bucket idx l)), []) := by
    simp only [addLauncherPath, hparent, hdir, hbucket, Option.getD_some, hhead, hsame,
      Bool.and_false]
    rfl
  refine ⟨_, hrun, rfl, rfl, rfl, ?_, ?_, rfl⟩
  · simp [withBookkeeping, fupd]
  · intro n hn
    simp [withBookkeeping, fupd, hn]

/-- Witness for C5 at the concrete state. -/
theorem c5_noop_add_witness :
    ∃ s', addLauncherPath noRender c5State c5Path (some c5L) = some (s', []) ∧
      s'.revision = c5State.revision ∧
      s'.props = c5State.props ∧
      s'.children = c5State.children ∧
      s'.cache c5Path.stem = some (btInsert [(0, c5A)] 0 c5L) ∧
      (∀ n, n ≠ c5Path.stem → s'.cache n = c5State.cache n) ∧
      s'.path_map = c5State.path_map :=
  c5_noop_add noRender c5State c5Path c5L [(0, c5A)] 0 c5A "u" 0
    rfl rfl rfl rfl (by decide)

/-- C4 amended: on an input path whose parent directory is unknown (for
AddOrUpdate and Remove), and on a Remove whose priority-cache slot does not
exist, the operation leaves the revision, the properties map and every
children list unchanged and emits no signal — but before the check it runs
the id allocator on the name and materializes the name's bucket via
`entry().or_default()` (an empty bucket when the name was never seen). -/
theorem c4_lookup_miss_noop (render : String → List Nat) (s : AppMenuDbusMenu)
    (p : FsPath) (l : Launcher) :
    ((p.parent = none ∨ (∃ src, p.parent = some src ∧ lookupIdxOfDir s.path_map src = none)) →
      addLauncherPath render s p (some l) =
        some (withBookkeeping s p.stem (fupd s.cache p.stem ((s.cache p.stem).getD [])), []) ∧
      removeLauncherPath render s p =
        some (withBookkeeping s p.stem (fupd s.cache p.stem ((s.cache p.stem).getD [])), [])) ∧
    (∀ src idx, p.parent = some src → lookupIdxOfDir s.path_map src = some idx →
      btGet ((s.cache p.stem).getD []) idx = none →
      removeLauncherPath render s p =
        some (withBookkeeping s p.stem (fupd s.cache p.stem ((s.cache p.stem).getD [])), [])) ∧
    (∀ cache', (withBookkeeping s p.stem cache').revision = s.revision ∧
      (withBookkeeping s p.stem cache').props = s.props ∧
      (withBookkeeping s p.stem cache').children = s.children) := by
  refine ⟨?_, ?_, ?_⟩
  · rintro (hparent | ⟨src, hparent, hdir⟩)
    · constructor
      · simp only [addLauncherPath, hparent]
        rfl
      · simp only [removeLauncherPath, hparent]
        rfl
    · constructor
      · simp only [addLauncherPath, hparent, hdir]
        rfl
      · simp only [removeLauncherPath, hparent, hdir]
        rfl
  · intro src idx hparent hdir hslot
    simp only [removeLauncherPath, hparent, hdir, hslot]
    rfl
  · intro cache'
    exact ⟨rfl, rfl, rfl⟩

/-- Witness for C4's amended statement: a Remove in a known directory with a
missing slot, and an AddOrUpdate/Remove in an unknown directory. -/
theorem c4_lookup_miss_noop_witness :
    (removeLauncherPath noRender c4State c4Path =
      some (withBookkeeping c4State c4Path.stem
        (fupd c4State.cache c4Path.stem []), [])) ∧
    (addLauncherPath noRender c4State
        { full := "nowhere/x.desktop", parent := some "nowhere", stem := "x" } (some c5A) =
      some (withBookkeeping c4State "x" (fupd c4State.cache "x" []), [])) := by
  constructor
  · exact (c4_lookup_miss_noop noRender c4State c4Path c5A).2.1 "dirA" 0 rfl rfl rfl
  · exact ((c4_lookup_miss_noop noRender c4State
      { full := "nowhere/x.desktop", parent := some "nowhere", stem := "x" } c5A).1
      (Or.inr ⟨"nowhere", rfl, rfl⟩)).1

theorem insSorted_perm (x : String × Nat) (l : List (String × Nat)) :
    (insSorted x l).Perm (x :: l) := by
  induction l with
  | nil => simp [insSorted]
  | cons y ys ih =>
    cases h : strLt x.1 y.1
    · rw [insSorted]
      simp only [h, Bool.false_eq_true, if_false]
      exact (List.Perm.cons y ih).trans (List.Perm.swap x y ys)
    · rw [insSorted]
      simp only [h, if_true]
      exact List.Perm.refl _

theorem sortPairs_perm_aux (l acc : List (String × Nat)) :
    (l.foldl (fun acc x => insSorted x acc) acc).Perm (acc ++ l) := by
  induction l generalizing acc with
  | nil => simp
  | cons x xs ih =>
    rw [List.foldl_cons]
    refine (ih (insSorted x acc)).trans ?_
    have h1 : (insSorted x acc ++ xs).Perm ((x :: acc) ++ xs) :=
      (insSorted_perm x acc).append_right xs
    refine h1.trans ?_
    simp only [List.cons_append]
    exact (List.perm_middle).symm

theorem sortPairs_perm (l : List (String × Nat)) : (sortPairs l).Perm l := by
  have := sortPairs_perm_aux l []
  simpa [sortPairs] using this

theorem labelPairs_snd {pr : Nat → Option MenuProps} :
    ∀ {l : List Nat} {pairs : List (String × Nat)},
      labelPairs pr l = some pairs → pairs.map (fun x => x.2) = l := by
  intro l
  induction l with
  | nil =>
    intro pairs h
    obtain rfl : ([] : List (String × Nat)) = pairs := Option.some.inj h
    rfl
  | cons k ks ih =>
    intro pairs h
    rw [labelPairs] at h
    cases hq : pr k with
    | none => rw [hq] at h; exact Option.noConfusion h
    | some q =>
      rw [hq] at h
      cases hr : labelPairs pr ks with
      | none => rw [hr] at h; exact Option.noConfusion h
      | some rest =>
        rw [hr] at h
        obtain rfl : (q.label, k) :: rest = pairs := Option.some.inj h
        simp [ih hr]

theorem labelPairs_congr {pr1 pr2 : Nat → Option MenuProps} :
    ∀ {l : List Nat},
      (∀ k ∈ l, (pr1 k).map MenuProps.label = (pr2 k).map MenuProps.label) →
      labelPairs pr1 l = labelPairs pr2 l := by
  intro l
  induction l with
  | nil => intro _; rfl
  | cons k ks ih =>
    intro h
    have hk := h k (List.mem_cons_self k ks)
    have hks := ih (fun j hj => h j (List.mem_cons_of_mem k hj))
    rw [labelPairs, labelPairs, hks]
    cases h1 : pr1 k with
    | none =>
      rw [h1] at hk
      cases h2 : pr2 k with
      | none => rfl
      | some q2 => rw [h2] at hk; exact Option.noConfusion hk
    | some q1 =>
      rw [h1] at hk
      cases h2 : pr2 k with
      | none => rw [h2] at hk; exact Option.noConfusion hk
      | some q2 =>
        rw [h2] at hk
        simp only [Option.map_some'] at hk
        obtain hlab : q1.label = q2.label := Option.some.inj hk
        cases hr : labelPairs pr2 ks with
        | none => rfl
        | some rest =>
          show some ((q1.label, k) :: rest) = some ((q2.label, k) :: rest)
          rw [hlab]

theorem sortByLabel_congr {pr1 pr2 : Nat → Option MenuProps} {l : List Nat}
    (h : ∀ k ∈ l, (pr1 k).map MenuProps.label = (pr2 k).map MenuProps.label) :
    sortByLabel pr1 l = sortByLabel pr2 l := by
  rw [sortByLabel, sortByLabel, labelPairs_congr h]

theorem sortByLabel_perm {pr : Nat → Option MenuProps} {l l' : List Nat}
    (h : sortByLabel pr l = some l') : l'.Perm l := by
  rw [sortByLabel] at h
  cases hp : labelPairs pr l with
  | none => rw [hp] at h; exact Option.noConfusion h
  | some pairs =>
    rw [hp] at h
    obtain rfl : (sortPairs pairs).map (fun x => x.2) = l' := Option.some.inj h
    have h1 : ((sortPairs pairs).map (fun x => x.2)).Perm (pairs.map (fun x => x.2)) :=
      (sortPairs_perm pairs).map _
    rw [labelPairs_snd hp] at h1
    exact h1

theorem ucp_go (pr0 : Nat → Option MenuProps) :
    ∀ (L : List Nat)
      (st out : (Nat → Option (List Nat)) × (Nat → Option MenuProps)),
      L.Nodup →
      (∀ k, (st.2 k).map MenuProps.label = (pr0 k).map MenuProps.label) →
      List.foldlM ucpStep st L = some out →
      ((∀ k, k ∉ L → out.1 k = st.1 k ∧ out.2 k = st.2 k) ∧
       (∀ k, (out.2 k).map MenuProps.label = (pr0 k).map MenuProps.label) ∧
       (∀ i ∈ L, ∃ p l l', st.2 i = some p ∧ st.1 i = some l ∧
          sortByLabel pr0 l = some l' ∧ out.1 i = some l' ∧
          out.2 i = some { p with visible := !l.isEmpty })) := by
  intro L
  induction L with
  | nil =>
    intro st out _ hlab h
    obtain rfl : st = out := by
      simpa [List.foldlM] using h
    exact ⟨fun k _ => ⟨rfl, rfl⟩, hlab, by simp⟩
  | cons i L' ih =>
    intro st out hnd hlab h
    rw [List.foldlM_cons] at h
    obtain ⟨st1, h1, h2⟩ := Option.bind_eq_some.mp h
    have hiL : i ∉ L' := (List.nodup_cons.mp hnd).1
    have hndL : L'.Nodup := (List.nodup_cons.mp hnd).2
    -- unpack the step at i
    rw [ucpStep] at h1
    cases hpi : st.2 i with
    | none => rw [hpi] at h1; exact Option.noConfusion h1
    | some p =>
      rw [hpi] at h1
      cases hci : st.1 i with
      | none => rw [hci] at h1; exact Option.noConfusion h1
      | some l =>
        rw [hci] at h1
        simp only [] at h1
        cases hsrt : sortByLabel (fupd st.2 i { p with visible := !l.isEmpty }) l with
        | none => rw [hsrt] at h1; exact Option.noConfusion h1
        | some l' =>
          rw [hsrt] at h1
          obtain rfl : (fupd st.1 i l', fupd st.2 i { p with visible := !l.isEmpty }) = st1 :=
            Option.some.inj h1
          have hlab1 : ∀ k,
              ((fupd st.2 i { p with visible := !l.isEmpty }) k).map MenuProps.label =
                (pr0 k).map MenuProps.label := by
            intro k
            by_cases hk : k = i
            · subst hk
              rw [← hlab k]
              simp [fupd, hpi]
            · simp [fupd, hk, hlab k]
          obtain ⟨A, B, C⟩ := ih _ out hndL hlab1 h2
          have hsrt0 : sortByLabel pr0 l = some l' := by
            rw [← hsrt]
            exact sortByLabel_congr (fun k _ => (hlab1 k).symm)
          refine ⟨?_, B, ?_⟩
          · intro k hk
            have hki : k ≠ i := fun heq => hk (heq ▸ List.mem_cons_self i L')
            have hkL : k ∉ L' := fun hm => hk (List.mem_cons_of_mem i hm)
            obtain ⟨ha1, ha2⟩ := A k hkL
            rw [ha1, ha2]
            constructor
            · simp [fupd, hki]
            · simp [fupd, hki]
          · intro j hj
            rcases List.mem_cons.mp hj with rfl | hj'
            · obtain ⟨ha1, ha2⟩ := A j hiL
              refine ⟨p, l, l', hpi, hci, hsrt0, ?_, ?_⟩
              · rw [ha1]; simp [fupd]
              · rw [ha2]; simp [fupd]
            · obtain ⟨p', l1, l1', hp', hc', hs', ho1, ho2⟩ := C j hj'
              have hji : j ≠ i := fun heq => hiL (heq ▸ hj')
              refine ⟨p', l1, l1', ?_, ?_, hs', ho1, ho2⟩
              · rw [← hp']; simp [fupd, hji]
              · rw [← hc']; simp [fupd, hji]

/-- C10: `update_category_props` touches only the category nodes (ids
`1..=11`): every other id keeps its children list and properties (in
particular the root node and every launcher item); each category's `visible`
flag becomes "children list non-empty", its children list becomes the stable
sort of the old list by label — a permutation, so no id is added to or
removed from any children list. -/
theorem c10_update_category_props_frame
    (ch : Nat → Option (List Nat)) (pr : Nat → Option MenuProps)
    (ch' : Nat → Option (List Nat)) (pr' : Nat → Option MenuProps)
    (h : update_category_props ch pr = some (ch', pr')) :
    (∀ k, k ∉ catIds → ch' k = ch k ∧ pr' k = pr k) ∧
    (∀ i ∈ catIds, ∃ p l l', pr i = some p ∧ ch i = some l ∧
      pr' i = some { p with visible := !l.isEmpty } ∧
      sortByLabel pr l = some l' ∧ ch' i = some l' ∧ l'.Perm l) := by
  obtain ⟨A, _, C⟩ := ucp_go pr catIds (ch, pr) (ch', pr')
    (by decide) (fun k => rfl) h
  refine ⟨A, ?_⟩
  intro i hi
  obtain ⟨p, l, l', hp, hc, hs, ho1, ho2⟩ := C i hi
  exact ⟨p, l, l', hp, hc, ho2, hs, ho1, sortByLabel_perm hs⟩

/-- Witness for C10 at the concrete maps: the root (0) and the items (12)
keep children and properties, category 3's list is re-sorted by label to
`[13, 12]`, and empty category 5 becomes invisible. -/
theorem c10_update_category_props_frame_witness :
    ∃ ch' pr', update_category_props c10Ch c10Pr = some (ch', pr') ∧
      ch' 0 = c10Ch 0 ∧ pr' 0 = c10Pr 0 ∧
      ch' 12 = c10Ch 12 ∧ pr' 12 = c10Pr 12 ∧
      ch' 3 = some [13, 12] ∧
      pr' 5 = some { root_props with visible := false } := by
  obtain ⟨out, hout⟩ : ∃ out, update_category_props c10Ch c10Pr = some out := ⟨_, rfl⟩
  obtain ⟨A, C⟩ := c10_update_category_props_frame c10Ch c10Pr out.1 out.2 (by rw [hout])
  refine ⟨out.1, out.2, by rw [hout], (A 0 (by decide)).1, (A 0 (by decide)).2,
    (A 12 (by decide)).1, (A 12 (by decide)).2, ?_, ?_⟩
  · obtain ⟨p, l, l', hp, hc, hpr, hs, ho, hperm⟩ := C 3 (by decide)
    obtain rfl : l = [12, 13] :=
      (Option.some.inj ((rfl : c10Ch 3 = some [12, 13]).symm.trans hc)).symm
    obtain rfl : l' = [13, 12] :=
      (Option.some.inj ((rfl : sortByLabel c10Pr [12, 13] = some [13, 12]).symm.trans hs)).symm
    exact ho
  · obtain ⟨p, l, l', hp, hc, hpr, hs, ho, hperm⟩ := C 5 (by decide)
    obtain rfl : p = root_props :=
      (Option.some.inj ((rfl : c10Pr 5 = some root_props).symm.trans hp)).symm
    obtain rfl : l = ([] : List Nat) :=
      (Option.some.inj ((rfl : c10Ch 5 = some []).symm.trans hc)).symm
    exact hpr

theorem collectChildren_congr {pr : Nat → Option MenuProps}
    {rec1 rec2 : Nat → Option LayoutEntry} :
    ∀ {l : List Nat}, (∀ c ∈ l, (pr c).isSome → rec1 c = rec2 c) →
      collectChildren pr rec1 l = collectChildren pr rec2 l := by
  intro l
  induction l with
  | nil => intro _; rfl
  | cons c cs ih =>
    intro h
    have hcs := ih (fun j hj => h j (List.mem_cons_of_mem c hj))
    rw [collectChildren, collectChildren, hcs]
    cases hc : pr c with
    | none => rfl
    | some q =>
      rw [h c (List.mem_cons_self c cs) (by simp [hc])]

theorem collectChildren_isSome {pr : Nat → Option MenuProps}
    {rec : Nat → Option LayoutEntry} :
    ∀ {l : List Nat}, (∀ c ∈ l, (pr c).isSome → (rec c).isSome) →
      (collectChildren pr rec l).isSome := by
  intro l
  induction l with
  | nil => intro _; simp [collectChildren]
  | cons c cs ih =>
    intro h
    have hcs := ih (fun j hj => h j (List.mem_cons_of_mem c hj))
    rw [collectChildren]
    cases hc : pr c with
    | none => exact hcs
    | some q =>
      have hrc := h c (List.mem_cons_self c cs) (by simp [hc])
      obtain ⟨e, he⟩ := Option.isSome_iff_exists.mp hrc
      obtain ⟨rest, hrest⟩ := Option.isSome_iff_exists.mp hcs
      rw [he, hrest]
      simp

theorem collectChildren_map {pr : Nat → Option MenuProps}
    {rec1 rec2 : Nat → Option LayoutEntry} {g : LayoutEntry → LayoutEntry} :
    ∀ {l : List Nat},
      (∀ c ∈ l, (pr c).isSome → (rec2 c).isSome ∧ rec1 c = (rec2 c).map g) →
      collectChildren pr rec1 l = (collectChildren pr rec2 l).map (List.map g) := by
  intro l
  induction l with
  | nil => intro _; rfl
  | cons c cs ih =>
    intro h
    have hcs := ih (fun j hj => h j (List.mem_cons_of_mem c hj))
    rw [collectChildren, collectChildren, hcs]
    cases hc : pr c with
    | none => rfl
    | some q =>
      obtain ⟨hsome, hmap⟩ := h c (List.mem_cons_self c cs) (by simp [hc])
      obtain ⟨e, he⟩ := Option.isSome_iff_exists.mp hsome
      rw [hmap, he]
      cases hrest : collectChildren pr rec2 cs with
      | none => rfl
      | some rest => rfl

theorem fullTreeF_isSome {ch : Nat → Option (List Nat)} {pr : Nat → Option MenuProps}
    {names : List String} {rank : Nat → Nat} (hL : Layered ch rank) :
    ∀ (fuel : Nat) (root : Nat), rank root < fuel → (pr root).isSome →
      (fullTreeF ch pr names fuel root).isSome := by
  intro fuel
  induction fuel with
  | zero => intro root h; omega
  | succ fuel ih =>
    intro root hrank hpr
    obtain ⟨p, hp⟩ := Option.isSome_iff_exists.mp hpr
    rw [fullTreeF, hp]
    cases hch : ch root with
    | none => simp
    | some l =>
      have hkids : (collectChildren pr (fun c => fullTreeF ch pr names fuel c) l).isSome := by
        apply collectChildren_isSome
        intro c hc hcp
        exact ih c (by have := hL root l hch c hc; omega) hcp
      obtain ⟨kids, hk⟩ := Option.isSome_iff_exists.mp hkids
      simp only [hk]
      simp

theorem fullTreeF_fuel_indep {ch : Nat → Option (List Nat)} {pr : Nat → Option MenuProps}
    {names : List String} {rank : Nat → Nat} (hL : Layered ch rank) :
    ∀ (fuel1 fuel2 : Nat) (root : Nat), rank root < fuel1 → rank root < fuel2 →
      fullTreeF ch pr names fuel1 root = fullTreeF ch pr names fuel2 root := by
  intro fuel1
  induction fuel1 with
  | zero => intro fuel2 root h; omega
  | succ fuel1 ih =>
    intro fuel2 root h1 h2
    cases fuel2 with
    | zero => omega
    | succ fuel2 =>
      rw [fullTreeF, fullTreeF]
      cases hp : pr root with
      | none => rfl
      | some p =>
        cases hch : ch root with
        | none => rfl
        | some l =>
          have : collectChildren pr (fun c => fullTreeF ch pr names fuel1 c) l =
              collectChildren pr (fun c => fullTreeF ch pr names fuel2 c) l := by
            apply collectChildren_congr
            intro c hc _
            have hcr := hL root l hch c hc
            exact ih fuel2 c (by omega) (by omega)
          simp only [this]

theorem getLayoutF_neg {ch : Nat → Option (List Nat)} {pr : Nat → Option MenuProps}
    {names : List String} :
    ∀ (fuel : Nat) (root : Nat) (d : Int), d < 0 →
      getLayoutF ch pr names fuel root d = fullTreeF ch pr names fuel root := by
  intro fuel
  induction fuel with
  | zero => intro root d _; rfl
  | succ fuel ih =>
    intro root d hd
    rw [getLayoutF, fullTreeF]
    cases hp : pr root with
    | none => rfl
    | some p =>
      have h1 : ¬ (0 : Int) < d := by omega
      have h2 : ¬ d = 0 := by omega
      cases hch : ch root with
      | none => simp only [if_neg h1, if_neg h2, hch]
      | some l =>
        have hx : collectChildren pr (fun c => getLayoutF ch pr names fuel c d) l =
            collectChildren pr (fun c => fullTreeF ch pr names fuel c) l :=
          collectChildren_congr (fun c _ _ => ih c d hd)
        simp only [if_neg h1, if_neg h2, hch, hx]

theorem truncateEntry_nil (n : Nat) (i : Nat) (p : List (String × PropValue)) :
    truncateEntry n (.node i p []) = .node i p [] := by
  cases n <;> simp [truncateEntry]

theorem getLayoutF_nonneg {ch : Nat → Option (List Nat)} {pr : Nat → Option MenuProps}
    {names : List String} {rank : Nat → Nat} (hL : Layered ch rank) :
    ∀ (fuel : Nat) (root : Nat) (d : Int), 0 ≤ d → rank root < fuel →
      getLayoutF ch pr names fuel root d =
        (fullTreeF ch pr names fuel root).map (truncateEntry (d - 1).toNat) := by
  intro fuel
  induction fuel with
  | zero => intro root d _ h; omega
  | succ fuel ih =>
    intro root d hd hrank
    rw [getLayoutF, fullTreeF]
    cases hp : pr root with
    | none => rfl
    | some p =>
      rcases (show (d = 0 ∨ d = 1) ∨ 2 ≤ d by omega) with hd01 | hd2
      · have hnext0 : (if (0 : Int) < d then d - 1 else d) = 0 := by
          rcases hd01 with rfl | rfl <;> decide
        have htn : (d - 1).toNat = 0 := by omega
        cases hch : ch root with
        | none => simp [hnext0, htn, hch, truncateEntry]
        | some l =>
          have hkids : (collectChildren pr (fun c => fullTreeF ch pr names fuel c) l).isSome :=
            collectChildren_isSome (fun c hc hcp =>
              fullTreeF_isSome hL fuel c (by have := hL root l hch c hc; omega) hcp)
          obtain ⟨K, hK⟩ := Option.isSome_iff_exists.mp hkids
          simp [hnext0, htn, hch, hK, truncateEntry]
      · have hnext : (if (0 : Int) < d then d - 1 else d) = d - 1 := if_pos (by omega)
        have hne : ¬ (d - 1 = (0 : Int)) := by omega
        cases hch : ch root with
        | none => simp [hnext, hne, hch, truncateEntry_nil]
        | some l =>
          have key : ∀ c ∈ l, (pr c).isSome →
              (fullTreeF ch pr names fuel c).isSome ∧
              getLayoutF ch pr names fuel c (d - 1) =
                (fullTreeF ch pr names fuel c).map (truncateEntry ((d - 1) - 1).toNat) := by
            intro c hc hcp
            have hcr := hL root l hch c hc
            exact ⟨fullTreeF_isSome hL fuel c (by omega) hcp,
              ih c (d - 1) (by omega) (by omega)⟩
          have hx := collectChildren_map key
          have hkids : (collectChildren pr (fun c => fullTreeF ch pr names fuel c) l).isSome :=
            collectChildren_isSome (fun c hc hcp => (key c hc hcp).1)
          obtain ⟨K, hK⟩ := Option.isSome_iff_exists.mp hkids
          have htn : (d - 1).toNat = ((d - 1) - 1).toNat + 1 := by omega
          have hsucc : truncateEntry ((d - 1).toNat)
                (LayoutEntry.node root (filterProps names (encodeProps p)) K) =
              LayoutEntry.node root (filterProps names (encodeProps p))
                (K.map (truncateEntry ((d - 1) - 1).toNat)) := by
            rw [htn]
            rfl
          simp only [hnext, if_neg hne, hch, hx, hK, Option.map_some', hsucc]

/-- C2 amended: for a parent with stored properties in a layered children map
(rank bounds the height, fuel above the parent's rank), the full tree `T`
below the parent is fuel-independent and: `depth < 0` returns `T` whole;
`depth = 0` returns only the parent node (no children); and `depth = d > 0`
returns the parent plus descendants down to exactly `d - 1` levels
(`truncateEntry (d-1)`): depth 1 behaves like depth 0, and
`GetLayout(root, 2)` — not 1 — returns the category nodes with no
grandchildren. -/
theorem c2_layout_depth (ch : Nat → Option (List Nat)) (pr : Nat → Option MenuProps)
    (names : List String) (rank : Nat → Nat) (parent : Nat) (fuel : Nat)
    (hL : Layered ch rank) (hf : rank parent < fuel) (hp : (pr parent).isSome) :
    ∃ T, fullTreeF ch pr names fuel parent = some T ∧
      (∀ fuel', rank parent < fuel' → fullTreeF ch pr names fuel' parent = some T) ∧
      (∀ d : Int, d < 0 → getLayoutF ch pr names fuel parent d = some T) ∧
      (∀ d : Int, 0 ≤ d → getLayoutF ch pr names fuel parent d =
        some (truncateEntry (d - 1).toNat T)) := by
  obtain ⟨T, hT⟩ := Option.isSome_iff_exists.mp (fullTreeF_isSome hL fuel parent hf hp)
  refine ⟨T, hT, ?_, ?_, ?_⟩
  · intro fuel' hf'
    rw [← fullTreeF_fuel_indep hL fuel fuel' parent hf hf', hT]
  · intro d hd
    rw [getLayoutF_neg fuel parent d hd, hT]
  · intro d hd
    rw [getLayoutF_nonneg hL fuel parent d hd hf, hT]
    rfl

/-- C2 counterexample: with a child (node 1) that has stored properties,
`get_layout` at `depth = 1` returns the parent with *no* children —
identical to `depth = 0` — while `depth = 2` returns the child; the claim
says `depth = d > 0` descends exactly `d` levels and in particular that
`depth = 1` returns the children. -/
theorem c2_depth_one_no_children :
    (c2Pr 1).isSome ∧ c2Ch 0 = some [1] ∧
    getLayoutF c2Ch c2Pr [] 3 0 1 =
      some (.node 0 (filterProps [] (encodeProps root_props)) []) ∧
    getLayoutF c2Ch c2Pr [] 3 0 1 = getLayoutF c2Ch c2Pr [] 3 0 0 ∧
    getLayoutF c2Ch c2Pr [] 3 0 2 =
      some (.node 0 (filterProps [] (encodeProps root_props))
        [.node 1 (filterProps [] (encodeProps root_props)) []]) :=
  ⟨rfl, rfl, rfl, rfl, rfl⟩

/-- Witness for C2's amended statement at the concrete two-node tree. -/
theorem c2_layout_depth_witness :
    ∃ T, fullTreeF c2Ch c2Pr [] 3 0 = some T ∧
      getLayoutF c2Ch c2Pr [] 3 0 (-1) = some T ∧
      getLayoutF c2Ch c2Pr [] 3 0 0 = some (truncateEntry 0 T) ∧
      getLayoutF c2Ch c2Pr [] 3 0 2 = some (truncateEntry 1 T) := by
  have hL : Layered c2Ch c2Rank := by
    intro i l h j hj
    by_cases hi : i = 0
    · subst hi
      simp [c2Ch] at h
      subst h
      simp at hj
      subst hj
      simp [c2Rank]
    · simp [c2Ch, hi] at h
  obtain ⟨T, hT, _, hneg, hpos⟩ := c2_layout_depth c2Ch c2Pr [] c2Rank 0 3 hL
    (by simp [c2Rank]) (by simp [c2Pr])
  refine ⟨T, hT, hneg (-1) (by decide), ?_, ?_⟩
  · rw [hpos 0 (by decide), show ((0 : Int) - 1).toNat = 0 by decide]
  · rw [hpos 2 (by decide), show ((2 : Int) - 1).toNat = 1 by decide]
